import Mathlib

/-!
Shallow embedding of the "Record Store & Generator" core of the
disposable-inbox application (src/app/src/utils.ts, src/app/src/types.ts,
which bundles the db layer and the App component).

Randomness (crypto.getRandomValues on a one-element Uint32Array) is
modelled as an explicit stream of draws src : Nat → Nat together with an
index into the stream; every draw is reduced mod 2^32 as the typed array
does.  JavaScript strings are modelled as Lean String/List Char; all the
text handled by this core is ASCII, where JS length (UTF-16 units), code
points and Lean Char counts agree.
-/

namespace Inbox

abbrev RandSrc := Nat → Nat

/-- One 32-bit sample of the random source, as read from Uint32Array. -/
def sample32 (src : RandSrc) (i : Nat) : Nat := src i % 2 ^ 32

/-- utils.ts randomInt: min + (array[0] % range), range = max - min + 1.
Returns the value and the next stream index. -/
def randomInt (src : RandSrc) (i : Nat) (lo hi : Nat) : Nat × Nat :=
  (lo + sample32 src i % (hi - lo + 1), i + 1)

/-- utils.ts randomChar: source[array[0] % source.length]. -/
def randomChar (src : RandSrc) (i : Nat) (source : List Char) : Char × Nat :=
  (source.getD (sample32 src i % source.length) ' ', i + 1)

def LETTERS : String := "abcdefghijklmnopqrstuvwxyz"

/-- LETTERS.toUpperCase() -/
def LETTERS_UPPER : String := "ABCDEFGHIJKLMNOPQRSTUVWXYZ"

def NUMBERS : String := "0123456789"

/-- "!@#$%^&*()-_=+[]\x7b\x7d;:,.?" (braces written as escapes). -/
def SYMBOLS : String := "!@#$%^&*()-_=+[]\x7b\x7d;:,.?"

/-- Character class of the regex [A-Z]. -/
def isUpperAZ (c : Char) : Bool := 'A' ≤ c && c ≤ 'Z'

/-- Character class of the regex [a-z]. -/
def isLowerAZ (c : Char) : Bool := 'a' ≤ c && c ≤ 'z'

/-- Character class of the regex \d, i.e. [0-9]. -/
def isDigit09 (c : Char) : Bool := '0' ≤ c && c ≤ '9'

/-- Character class of the regex \w (no unicode flag): [A-Za-z0-9_]. -/
def isWordChar (c : Char) : Bool := isUpperAZ c || isLowerAZ c || isDigit09 c || c == '_'

/-- utils.ts passwordHasRequirements: the four regex tests
[A-Z], [a-z], \d and [^A-Za-z0-9], conjoined. -/
def passwordHasRequirements (password : String) : Bool :=
  password.data.any isUpperAZ && password.data.any isLowerAZ &&
    password.data.any isDigit09 &&
    password.data.any (fun c => !(isUpperAZ c || isLowerAZ c || isDigit09 c))

def allChars : String := LETTERS ++ LETTERS_UPPER ++ NUMBERS ++ SYMBOLS

/-- The while loop of generateSecurePassword: password starts empty and
gains exactly one character per iteration, so it runs exactly len times;
the loop counter is that remaining count. -/
def fillPassword (src : RandSrc) : Nat → Nat → List Char → List Char × Nat
  | 0, i, acc => (acc, i)
  | n + 1, i, acc =>
    let ci := randomChar src i allChars.data
    fillPassword src n ci.2 (acc ++ [ci.1])

/-- One full attempt of the body of generateSecurePassword: draw a
target length in [12,16], then fill by random selection from allChars. -/
def passwordAttempt (src : RandSrc) (i : Nat) : String × Nat :=
  let li := randomInt src i 12 16
  let pw := fillPassword src li.1 li.2 []
  (String.mk pw.1, pw.2)

/-- utils.ts generateSecurePassword.  The source recurses into itself
whenever the attempt misses one of the four character classes; the
recursion is embedded with explicit fuel, none meaning that the given
number of attempts was exhausted without returning. -/
def generateSecurePasswordFuel (src : RandSrc) : Nat → Nat → Option (String × Nat)
  | 0, _ => none
  | fuel + 1, i =>
    let att := passwordAttempt src i
    if passwordHasRequirements att.1 then some att
    else generateSecurePasswordFuel src fuel att.2

/-- Stream index at the start of attempt number k of
generateSecurePassword, counting from the initial index i. -/
def attemptIndex (src : RandSrc) (i : Nat) : Nat → Nat
  | 0 => i
  | k + 1 => (passwordAttempt src (attemptIndex src i k)).2

inductive StrengthLevel where
  | weak
  | medium
  | strong
deriving DecidableEq, Repr

/-- utils.ts evaluateStrength, with the sequential score updates kept as
in the source.  new Set(password).size is the number of distinct code
points; uniqueChars >= password.length - 2 is JS number arithmetic, so
the comparison is taken over Int. -/
def evaluateStrength (password : String) : StrengthLevel :=
  let uniqueChars := password.data.dedup.length
  let s1 : Nat := if password.length ≥ 12 then 0 + 1 else 0
  let s2 := if password.length ≥ 14 then s1 + 1 else s1
  let s3 := if password.data.any isUpperAZ then s2 + 1 else s2
  let s4 := if password.data.any isLowerAZ then s3 + 1 else s3
  let s5 := if password.data.any isDigit09 then s4 + 1 else s4
  let s6 := if password.data.any (fun c => !isWordChar c) then s5 + 1 else s5
  let s7 := if (uniqueChars : Int) ≥ (password.length : Int) - 2 then s6 + 1 else s6
  if s7 ≤ 3 then .weak else if s7 ≤ 5 then .medium else .strong

/-- Spec wording: score additive over the 7 boolean signals. -/
def strengthScoreSpec (password : String) : Nat :=
  (if password.length ≥ 12 then 1 else 0) +
    (if password.length ≥ 14 then 1 else 0) +
    (if password.data.any isUpperAZ then 1 else 0) +
    (if password.data.any isLowerAZ then 1 else 0) +
    (if password.data.any isDigit09 then 1 else 0) +
    (if password.data.any (fun c => !isWordChar c) then 1 else 0) +
    (if (password.data.dedup.length : Int) ≥ (password.length : Int) - 2 then 1 else 0)

/-- Spec wording: s ≤ 3 weak, 4 ≤ s ≤ 5 medium, s ≥ 6 strong. -/
def strengthTierSpec (s : Nat) : StrengthLevel :=
  if s ≤ 3 then .weak else if s ≤ 5 then .medium else .strong

def EMAIL_DOMAINS : List String :=
  ["guerrillamail.com", "mailinator.com", "tempmail.org", "10minutemail.com",
    "maildrop.cc", "inboxkitten.com", "dispostable.com", "temp-mail.io",
    "yopmail.com", "mintemail.com", "fakeinbox.com", "mailcatch.com"]

def phoneticPrefixes : List String :=
  ["alpha", "bravo", "charlie", "delta", "echo", "foxtrot", "gamma", "helios",
    "ion", "juno", "kilo", "lima", "nova", "orion", "pluto", "quantum"]

/-- The while loop of generateRandomEmail: local gains exactly one
character per iteration, so it runs localLength - local.length times;
the loop counter is that remaining count. -/
def padLocalLoop (src : RandSrc) : Nat → Nat → List Char → List Char × Nat
  | 0, i, loc => (loc, i)
  | n + 1, i, loc =>
    let si := randomInt src i 0 1
    let set := if si.1 = 0 then LETTERS.data else NUMBERS.data
    let ci := randomChar src si.2 set
    padLocalLoop src n ci.2 (loc ++ [ci.1])

/-- utils.ts generateRandomEmail. -/
def generateRandomEmail (src : RandSrc) (i : Nat) : String × Nat :=
  let ll := randomInt src i 8 12
  let wi := randomInt src ll.2 0 (phoneticPrefixes.length - 1)
  let word := (phoneticPrefixes.getD wi.1 "").data
  let loc := padLocalLoop src (ll.1 - word.length) wi.2 word
  let di := randomInt src loc.2 0 (EMAIL_DOMAINS.length - 1)
  (String.mk (loc.1 ++ '@' :: (EMAIL_DOMAINS.getD di.1 "").data), di.2)

/-- One alternative \b\d{k}\b of the OTP regex, anchored at the head of
l (the boundary before the head is checked by the caller): exactly k
digits followed by end-of-input or a non-word character. -/
def otpAt (l : List Char) (k : Nat) : Option (List Char) :=
  let run := l.take k
  if run.length = k && run.all isDigit09 &&
      (match l.drop k with
        | [] => true
        | c :: _ => !isWordChar c) then
    some run
  else none

/-- The alternation \b\d{4}\b|\b\d{6}\b|\b\d{8}\b at one position:
alternatives are tried left to right. -/
def otpAlt (l : List Char) : Option (List Char) :=
  match otpAt l 4 with
  | some r => some r
  | none =>
    match otpAt l 6 with
    | some r => some r
    | none => otpAt l 8

/-- Whether a word boundary \b holds between the previous character
(none at the start of the text) and a following word character. -/
def boundOk : Option Char → Bool
  | none => true
  | some p => !isWordChar p

/-- The left-to-right scan of String.prototype.match: try the
alternation at each position, earliest match wins.  prev is the
character just before the current suffix. -/
def scanOtp : Option Char → List Char → Option (List Char)
  | _, [] => none
  | prev, c :: rest =>
    match (if boundOk prev then otpAlt (c :: rest) else none) with
    | some r => some r
    | none => scanOtp (some c) rest

/-- utils.ts extractOtp: text.match(/\b\d{4}\b|\b\d{6}\b|\b\d{8}\b/),
returning the matched substring or null. -/
def extractOtp (text : String) : Option String :=
  (scanOtp none text.data).map String.mk

/-! ### Message synthesizer (App component in types.ts) -/

structure MessageTemplate where
  sender : String
  subjects : List String
  bodies : List String
deriving DecidableEq, Repr

def OTP_LENGTHS : List Nat := [4, 6, 8]

def messageTemplates : List MessageTemplate :=
  [⟨"Google",
      ["Google verification code %CODE%", "Google security PIN %CODE%"],
      ["Your Google verification code is %CODE%. Enter this code within 10 minutes to continue.",
        "Google account sign-in attempt detected. Use code %CODE% to verify it\x27s you."]⟩,
    ⟨"Facebook",
      ["Facebook login code %CODE%", "Facebook password reset %CODE%"],
      ["Someone tried to sign in to Facebook. Use %CODE% to confirm it was you.",
        "Reset your Facebook password with code %CODE%. It expires soon."]⟩,
    ⟨"WhatsApp",
      ["WhatsApp code %CODE%", "WhatsApp secure login %CODE%"],
      ["Your WhatsApp verification code is %CODE%. Never forward this OTP.",
        "WhatsApp code: %CODE%. Only use this code for the official app."]⟩,
    ⟨"Instagram",
      ["Instagram confirmation %CODE%", "Instagram login help %CODE%"],
      ["Enter %CODE% on Instagram to finish signing in.",
        "We received a login request. Use code %CODE% if it was you."]⟩,
    ⟨"Twitter",
      ["Twitter security code %CODE%", "Twitter login verification %CODE%"],
      ["Use %CODE% as your security code for Twitter. Do not share it.",
        "Enter %CODE% to confirm access to your Twitter account."]⟩,
    ⟨"LinkedIn",
      ["LinkedIn login code %CODE%", "LinkedIn security alert %CODE%"],
      ["Use %CODE% to finish signing in to LinkedIn.",
        "LinkedIn security check: enter code %CODE% to continue."]⟩,
    ⟨"Amazon",
      ["Amazon verification %CODE%", "Amazon account protection %CODE%"],
      ["Amazon one-time password: %CODE%. Keep your account secure.",
        "Enter %CODE% to confirm recent activity on Amazon."]⟩,
    ⟨"Apple",
      ["Apple ID sign in %CODE%", "Apple security code %CODE%"],
      ["Use %CODE% as your Apple ID verification code.",
        "Apple verification code %CODE%. It will expire shortly."]⟩,
    ⟨"Microsoft",
      ["Microsoft account code %CODE%", "Microsoft security alert %CODE%"],
      ["Here is your Microsoft account code: %CODE%.",
        "Microsoft security warning: enter %CODE% if you recognize this sign in."]⟩,
    ⟨"PayPal",
      ["PayPal confirmation %CODE%", "PayPal secure code %CODE%"],
      ["Use %CODE% to approve recent activity on your PayPal account.",
        "PayPal code %CODE% will expire in 5 minutes."]⟩,
    ⟨"Netflix",
      ["Netflix access code %CODE%", "Netflix login help %CODE%"],
      ["Netflix verification code: %CODE%.",
        "We detected a new login. Use %CODE% if this was you."]⟩,
    ⟨"Uber",
      ["Uber verification %CODE%", "Uber ride security %CODE%"],
      ["Enter %CODE% in Uber to complete your sign in.",
        "Uber security check: code %CODE%."]⟩,
    ⟨"Slack",
      ["Slack login code %CODE%", "Slack workspace access %CODE%"],
      ["Slack verification code: %CODE%.",
        "Use %CODE% to access your Slack workspace."]⟩,
    ⟨"Zoom",
      ["Zoom meeting code %CODE%", "Zoom account security %CODE%"],
      ["Secure your Zoom account with code %CODE%.",
        "Zoom verification: %CODE%. Never share it."]⟩,
    ⟨"Dropbox",
      ["Dropbox sign-in code %CODE%", "Dropbox device alert %CODE%"],
      ["Dropbox code %CODE% keeps your files secure.",
        "Someone tried to access Dropbox. Use %CODE% if it was you."]⟩,
    ⟨"GitHub",
      ["GitHub 2FA code %CODE%", "GitHub security check %CODE%"],
      ["Your GitHub authentication code is %CODE%.",
        "GitHub security: use %CODE% to finish signing in."]⟩,
    ⟨"Snapchat",
      ["Snapchat login code %CODE%", "Snapchat recovery code %CODE%"],
      ["Enter %CODE% to access Snapchat on your device.",
        "Snapchat recovery code: %CODE%."]⟩,
    ⟨"Telegram",
      ["Telegram code %CODE%", "Telegram sign-in %CODE%"],
      ["Telegram login code: %CODE%.",
        "Use %CODE% to confirm Telegram access."]⟩,
    ⟨"Stripe",
      ["Stripe verification %CODE%", "Stripe alert %CODE%"],
      ["Stripe security code: %CODE%.",
        "Enter %CODE% to verify your recent Stripe activity."]⟩,
    ⟨"Airbnb",
      ["Airbnb confirmation %CODE%", "Airbnb login %CODE%"],
      ["Use %CODE% to confirm your Airbnb booking.",
        "Airbnb login security code: %CODE%."]⟩,
    ⟨"Spotify",
      ["Spotify access code %CODE%", "Spotify sign in %CODE%"],
      ["Spotify verification code: %CODE%.",
        "Enter %CODE% to continue with Spotify."]⟩,
    ⟨"Discord",
      ["Discord login code %CODE%", "Discord security %CODE%"],
      ["Discord verification: %CODE%.",
        "Discord code %CODE% prevents unauthorized access."]⟩]

structure MessageRecord where
  id : String
  sender : String
  subject : String
  body : String
  otp : Option String
  timestamp : Nat
deriving DecidableEq, Repr

/-- The for loop building the OTP digit string: otpLength iterations,
each appending randomInt(0,9).toString(). -/
def genOtpDigits (src : RandSrc) : Nat → Nat → String → String × Nat
  | 0, i, acc => (acc, i)
  | n + 1, i, acc =>
    let di := randomInt src i 0 9
    genOtpDigits src n di.2 (acc ++ toString di.1)

/-- createMessageRecord from the App component.  crypto.randomUUID()
and Date.now() are environment inputs, passed as uuid and now. -/
def createMessageRecord (src : RandSrc) (i : Nat) (uuid : String) (now : Nat) :
    MessageRecord × Nat :=
  let ti := randomInt src i 0 (messageTemplates.length - 1)
  let template := messageTemplates.getD ti.1 ⟨"", [], []⟩
  let li := randomInt src ti.2 0 (OTP_LENGTHS.length - 1)
  let otpLength := OTP_LENGTHS.getD li.1 0
  let oi := genOtpDigits src otpLength li.2 ""
  let si := randomInt src oi.2 0 (template.subjects.length - 1)
  let subjectTemplate := template.subjects.getD si.1 ""
  let bi := randomInt src si.2 0 (template.bodies.length - 1)
  let bodyTemplate := template.bodies.getD bi.1 ""
  let subject := subjectTemplate.replace "%CODE%" oi.1
  let body := bodyTemplate.replace "%CODE%" oi.1
  let detectedOtp := (extractOtp body).getD oi.1
  ({ id := uuid, sender := template.sender, subject := subject, body := body,
      otp := some detectedOtp, timestamp := now }, bi.2)

/-! ### Bounded record store (db layer in types.ts)

Two code paths: the in-memory fallback (global arrays, push + sort by
descending timestamp + splice-from-the-front trim) and the IndexedDB
path (put keyed by id, trim via a cursor walking the timestamp index in
"prev", i.e. descending, order and deleting every record past the first
STORE_LIMIT).  Both are modelled generically over the record type, given
its timestamp and id projections.  Array.prototype.sort with comparator
(a, b) => b.timestamp - a.timestamp is a stable descending sort by
timestamp, which is exactly insertionSort with relation ts b ≤ ts a.
The IndexedDB store state is modelled as the list of live records; the
timestamp-index cursor in "prev" direction is modelled as the stable
descending sort (tie order among equal timestamps is immaterial to the
claims proved here). -/

structure CredentialRecord where
  id : String
  email : String
  password : String
  strength : StrengthLevel
  timestamp : Nat
deriving DecidableEq, Repr

def STORE_LIMIT : Nat := 100

section Store

variable {α : Type} (ts : α → Nat) (rid : α → String)

/-- Element order of the JS sort comparator (a, b) => b.timestamp - a.timestamp. -/
def tsGE (a b : α) : Prop := ts b ≤ ts a

instance : DecidableRel (tsGE ts) := fun _ _ => Nat.decLe _ _

def sortByTimestampDesc (l : List α) : List α := l.insertionSort (tsGE ts)

/-- trimStore, in-memory branch: splice(0, length - STORE_LIMIT)
removes the first length - STORE_LIMIT elements of the array. -/
def trimStoreMemory (l : List α) : List α :=
  if l.length > STORE_LIMIT then l.drop (l.length - STORE_LIMIT) else l

/-- persistCredential / persistMessage, in-memory branch: push the
record, sort descending by timestamp, then trim. -/
def persistMemory (r : α) (l : List α) : List α :=
  trimStoreMemory (sortByTimestampDesc ts (l ++ [r]))

/-- fetchRecords, in-memory branch: a copy of the array as it stands. -/
def fetchMemory (l : List α) : List α := l

def persistManyMemory (rs : List α) (l : List α) : List α :=
  rs.foldl (fun s r => persistMemory ts r s) l

/-- IDBObjectStore.put with keyPath "id": replace any record with the
same id, then add the new one. -/
def putIndexed (r : α) (l : List α) : List α :=
  l.filter (fun x => rid x ≠ rid r) ++ [r]

/-- trimStore, IndexedDB branch: walk the timestamp index descending
and delete every record after the first STORE_LIMIT. -/
def trimStoreIndexed (l : List α) : List α :=
  (sortByTimestampDesc ts l).take STORE_LIMIT

/-- persistCredential / persistMessage, IndexedDB branch: put then trim. -/
def persistIndexed (r : α) (l : List α) : List α :=
  trimStoreIndexed ts (putIndexed rid r l)

/-- fetchRecords, IndexedDB branch: walk the timestamp index descending,
collecting every record. -/
def fetchIndexed (l : List α) : List α := sortByTimestampDesc ts l

def persistManyIndexed (rs : List α) (l : List α) : List α :=
  rs.foldl (fun s r => persistIndexed ts rid r s) l

end Store

/-! ### Auxiliary definitions used by the statements below -/

/-- The regex alternation tried at position i of the text: a word
boundary must hold between the characters at i - 1 and i, and one of
\d{4}\b, \d{6}\b, \d{8}\b must match starting at i.  Used to state that
extractOtp returns the leftmost such match. -/
def otpFromIdx (prev : Option Char) (l : List Char) (i : Nat) : Option (List Char) :=
  if boundOk (if i = 0 then prev else some (l.getD (i - 1) ' ')) then otpAlt (l.drop i) else none

/-- A pathological random source: every draw is 0, so every password
attempt is "aaaaaaaaaaaa" and never satisfies the requirements. -/
def srcAllZero : RandSrc := fun _ => 0

/-- A random source whose first password attempt succeeds: length draw
12, then characters a, A, 0, !, a, a, ... -/
def srcGoodPassword : RandSrc := fun n =>
  if n = 2 then 26 else if n = 3 then 52 else if n = 4 then 62 else 0

/-- n credential records with timestamps 1, 2, ..., n in put order. -/
def ascTimestampCreds (n : Nat) : List CredentialRecord :=
  (List.range n).map fun k => ⟨"", "", "", .weak, k + 1⟩

/-- n credential records with timestamps n, n - 1, ..., 1. -/
def descTimestampCreds (n : Nat) : List CredentialRecord :=
  (List.range n).map fun k => ⟨"", "", "", .weak, n - k⟩

/-! ### Basic lemmas about the random generator -/

theorem randomInt_bounds (src : RandSrc) (i lo hi : Nat) (h : lo ≤ hi) :
    lo ≤ (randomInt src i lo hi).1 ∧ (randomInt src i lo hi).1 ≤ hi := by
  have hm : sample32 src i % (hi - lo + 1) < hi - lo + 1 :=
    Nat.mod_lt _ (by omega)
  unfold randomInt
  constructor
  · exact Nat.le_add_right lo _
  · simp only []
    omega

theorem randomInt_zero_lt (src : RandSrc) (i n : Nat) (h : 0 < n) :
    (randomInt src i 0 (n - 1)).1 < n := by
  have he : n - 1 - 0 + 1 = n := by omega
  unfold randomInt
  simp only [he, Nat.zero_add]
  exact Nat.mod_lt _ h

theorem getD_mem {β : Type} (l : List β) (k : Nat) (d : β) (h : k < l.length) :
    l.getD k d ∈ l := by
  induction l generalizing k with
  | nil => simp at h
  | cons a t ih =>
    cases k with
    | zero => simp [List.getD]
    | succ k =>
      have := ih k (by simpa using Nat.lt_of_succ_lt_succ h)
      simp only [List.getD_cons_succ]
      exact List.mem_cons_of_mem a this

theorem randomChar_mem (src : RandSrc) (i : Nat) (source : List Char)
    (h : source ≠ []) : (randomChar src i source).1 ∈ source := by
  unfold randomChar
  exact getD_mem _ _ _ (Nat.mod_lt _ (List.length_pos.mpr h))

/-! ### Password generation lemmas -/

theorem fillPassword_length (src : RandSrc) :
    ∀ (n i : Nat) (acc : List Char),
      (fillPassword src n i acc).1.length = acc.length + n := by
  intro n
  induction n with
  | zero => intro i acc; rfl
  | succ n ih =>
    intro i acc
    simp only [fillPassword, ih]
    simp
    omega

theorem passwordAttempt_length (src : RandSrc) (i : Nat) :
    12 ≤ (passwordAttempt src i).1.length ∧ (passwordAttempt src i).1.length ≤ 16 := by
  have hb := randomInt_bounds src i 12 16 (by omega)
  unfold passwordAttempt
  simp only [String.length, String.mk]
  rw [fillPassword_length]
  simpa using hb

/-- Claim C4: every string returned by generateSecurePassword has length
in [12,16] and satisfies passwordHasRequirements.  The recursion is
embedded with fuel; "returned" means the fuelled run produced some. -/
theorem claim_C4 (src : RandSrc) (fuel i : Nat) (pw : String) (j : Nat)
    (h : generateSecurePasswordFuel src fuel i = some (pw, j)) :
    12 ≤ pw.length ∧ pw.length ≤ 16 ∧ passwordHasRequirements pw = true := by
  induction fuel generalizing i with
  | zero => simp [generateSecurePasswordFuel] at h
  | succ fuel ih =>
    rw [generateSecurePasswordFuel] at h
    by_cases hc : passwordHasRequirements (passwordAttempt src i).1 = true
    · rw [if_pos hc] at h
      have hatt := Option.some.inj h
      have hpw : pw = (passwordAttempt src i).1 := by rw [hatt]
      subst hpw
      exact ⟨(passwordAttempt_length src i).1, (passwordAttempt_length src i).2, hc⟩
    · rw [if_neg hc] at h
      exact ih _ h

theorem claim_C4_witness :
    12 ≤ ("aA0!aaaaaaaa" : String).length ∧ ("aA0!aaaaaaaa" : String).length ≤ 16 ∧
      passwordHasRequirements "aA0!aaaaaaaa" = true :=
  claim_C4 srcGoodPassword 1 0 "aA0!aaaaaaaa" 13 (by decide)

/-! ### Non-termination of the password retry on a pathological source -/

theorem fillPassword_allZero (n : Nat) :
    ∀ (i : Nat) (acc : List Char),
      fillPassword srcAllZero n i acc = (acc ++ List.replicate n 'a', i + n) := by
  induction n with
  | zero => intro i acc; simp [fillPassword]
  | succ n ih =>
    intro i acc
    have hc : randomChar srcAllZero i allChars.data = ('a', i + 1) := rfl
    rw [fillPassword, hc, ih]
    simp only [Prod.mk.injEq]
    constructor
    · simp [List.replicate_succ, List.append_assoc]
    · show i + 1 + n = i + (n + 1)
      omega

theorem passwordAttempt_allZero (i : Nat) :
    passwordAttempt srcAllZero i = ("aaaaaaaaaaaa", i + 13) := by
  have hr : randomInt srcAllZero i 12 16 = (12, i + 1) := rfl
  simp only [passwordAttempt, hr]
  rw [fillPassword_allZero]
  rfl

theorem generateSecurePasswordFuel_allZero (fuel : Nat) :
    ∀ i : Nat, generateSecurePasswordFuel srcAllZero fuel i = none := by
  induction fuel with
  | zero => intro i; rfl
  | succ fuel ih =>
    intro i
    rw [generateSecurePasswordFuel, passwordAttempt_allZero]
    simp only [show passwordHasRequirements "aaaaaaaaaaaa" = false from rfl]
    simpa using ih (i + 13)

/-- Counterexample to claim C5: the code has no retry cap and no
constructive fallback, so on the all-zero random source (every attempt
is "aaaaaaaaaaaa") no amount of fuel makes generateSecurePassword
return: the recursion never terminates. -/
theorem claim_C5_counterexample :
    ¬ ∃ (fuel : Nat) (pw : String) (j : Nat),
        generateSecurePasswordFuel srcAllZero fuel 0 = some (pw, j) := by
  rintro ⟨fuel, pw, j, h⟩
  rw [generateSecurePasswordFuel_allZero fuel 0] at h
  exact Option.noConfusion h

theorem attemptIndex_shift (src : RandSrc) (i : Nat) :
    ∀ k : Nat, attemptIndex src (passwordAttempt src i).2 k = attemptIndex src i (k + 1) := by
  intro k
  induction k with
  | zero => rfl
  | succ k ih => rw [attemptIndex, ih]; rfl

/-- Claim C5 as amended: generateSecurePassword retries by unbounded
self-recursion; within a given number of attempts it terminates exactly
when one of those attempts contains all four character classes, and (see
the counterexample) a pathological source defeats every bound. -/
theorem claim_C5_amended (src : RandSrc) (i fuel : Nat) :
    (generateSecurePasswordFuel src fuel i).isSome = true ↔
      ∃ k, k < fuel ∧
        passwordHasRequirements (passwordAttempt src (attemptIndex src i k)).1 = true := by
  induction fuel generalizing i with
  | zero => simp [generateSecurePasswordFuel]
  | succ fuel ih =>
    rw [generateSecurePasswordFuel]
    by_cases hc : passwordHasRequirements (passwordAttempt src i).1 = true
    · rw [if_pos hc]
      simp only [Option.isSome_some, true_iff]
      exact ⟨0, Nat.succ_pos _, hc⟩
    · rw [if_neg hc]
      rw [ih]
      constructor
      · rintro ⟨k, hk, hp⟩
        refine ⟨k + 1, by omega, ?_⟩
        rwa [← attemptIndex_shift]
      · rintro ⟨k, hk, hp⟩
        cases k with
        | zero => exact absurd hp hc
        | succ k =>
          refine ⟨k, by omega, ?_⟩
          rwa [attemptIndex_shift]

theorem claim_C5_amended_witness :
    (generateSecurePasswordFuel srcGoodPassword 1 0).isSome = true :=
  (claim_C5_amended srcGoodPassword 0 1).mpr ⟨0, by omega, by decide⟩

/-! ### Strength evaluator -/

theorem ite_add_one (c : Prop) [Decidable c] (s : Nat) :
    (if c then s + 1 else s) = s + (if c then 1 else 0) := by
  split_ifs <;> omega

theorem strengthScore_chain (c1 c2 c3 c4 c5 c6 c7 : Prop)
    [Decidable c1] [Decidable c2] [Decidable c3] [Decidable c4] [Decidable c5]
    [Decidable c6] [Decidable c7] :
    (let s1 : Nat := if c1 then 0 + 1 else 0
     let s2 := if c2 then s1 + 1 else s1
     let s3 := if c3 then s2 + 1 else s2
     let s4 := if c4 then s3 + 1 else s3
     let s5 := if c5 then s4 + 1 else s4
     let s6 := if c6 then s5 + 1 else s5
     if c7 then s6 + 1 else s6) =
      (if c1 then 1 else 0) + (if c2 then 1 else 0) + (if c3 then 1 else 0) +
        (if c4 then 1 else 0) + (if c5 then 1 else 0) + (if c6 then 1 else 0) +
        (if c7 then 1 else 0) := by
  dsimp only
  rw [ite_add_one c7, ite_add_one c6, ite_add_one c5, ite_add_one c4,
    ite_add_one c3, ite_add_one c2, ite_add_one c1, Nat.zero_add]

theorem evaluateStrength_eq_spec (p : String) :
    evaluateStrength p = strengthTierSpec (strengthScoreSpec p) := by
  have h := strengthScore_chain (p.length ≥ 12) (p.length ≥ 14)
    (p.data.any isUpperAZ = true) (p.data.any isLowerAZ = true)
    (p.data.any isDigit09 = true) (p.data.any (fun c => !isWordChar c) = true)
    ((p.data.dedup.length : Int) ≥ (p.length : Int) - 2)
  dsimp only at h
  unfold evaluateStrength
  dsimp only
  rw [h]
  rfl

/-- Claim C6: evaluateStrength is the additive sum of the 7 boolean
signals (length ≥ 12, length ≥ 14, uppercase, lowercase, digit,
non-word character, distinct-count ≥ length - 2, one point each) mapped
through s ≤ 3 weak / 4 ≤ s ≤ 5 medium / s ≥ 6 strong. -/
theorem claim_C6 (p : String) :
    evaluateStrength p = strengthTierSpec (strengthScoreSpec p) :=
  evaluateStrength_eq_spec p

/-- Claim C7: any string of length ≥ 12 containing an uppercase letter,
a lowercase letter, a digit and a character outside [A-Za-z0-9] scores
medium or strong (determinism is definitional: evaluateStrength is a
pure function of its argument in this embedding, as in the source). -/
theorem claim_C7 (p : String) (h1 : 12 ≤ p.length)
    (h2 : p.data.any isUpperAZ = true) (h3 : p.data.any isLowerAZ = true)
    (h4 : p.data.any isDigit09 = true)
    (h5 : p.data.any (fun c => !(isUpperAZ c || isLowerAZ c || isDigit09 c)) = true) :
    evaluateStrength p = .medium ∨ evaluateStrength p = .strong := by
  rw [evaluateStrength_eq_spec]
  have hS : 4 ≤ strengthScoreSpec p := by
    simp only [strengthScoreSpec, h2, h3, h4, if_true, ge_iff_le, if_pos h1]
    split_ifs <;> omega
  unfold strengthTierSpec
  split_ifs with hA hB
  · omega
  · exact Or.inl rfl
  · exact Or.inr rfl

theorem claim_C7_witness :
    evaluateStrength "Aa1!aaaaaaaa" = .medium ∨ evaluateStrength "Aa1!aaaaaaaa" = .strong :=
  claim_C7 "Aa1!aaaaaaaa" (by decide) (by decide) (by decide) (by decide) (by decide)

theorem claim_C6_witness :
    evaluateStrength "Aa1!aaaaaaaa" = strengthTierSpec (strengthScoreSpec "Aa1!aaaaaaaa") :=
  claim_C6 "Aa1!aaaaaaaa"

/-! ### Bounded record store: ordering lemmas -/

instance {α : Type} (ts : α → Nat) : IsTotal α (tsGE ts) :=
  ⟨fun a b => Nat.le_total (ts b) (ts a)⟩

instance {α : Type} (ts : α → Nat) : IsTrans α (tsGE ts) :=
  ⟨fun _ _ _ h1 h2 => Nat.le_trans h2 h1⟩

theorem sorted_sortByTimestampDesc {α : Type} (ts : α → Nat) (l : List α) :
    (sortByTimestampDesc ts l).Pairwise (tsGE ts) :=
  List.sorted_insertionSort (tsGE ts) l

theorem sorted_persistMemory {α : Type} (ts : α → Nat) (r : α) (l : List α) :
    (persistMemory ts r l).Pairwise (tsGE ts) := by
  unfold persistMemory trimStoreMemory
  split_ifs with h
  · exact List.Pairwise.sublist (List.drop_sublist _ _)
      (sorted_sortByTimestampDesc ts (l ++ [r]))
  · exact sorted_sortByTimestampDesc ts (l ++ [r])

theorem sorted_persistManyMemory {α : Type} (ts : α → Nat) (rs : List α) :
    ∀ l : List α, l.Pairwise (tsGE ts) → (persistManyMemory ts rs l).Pairwise (tsGE ts) := by
  induction rs with
  | nil => intro l h; exact h
  | cons r rs ih =>
    intro l h
    simp only [persistManyMemory, List.foldl_cons]
    exact ih (persistMemory ts r l) (sorted_persistMemory ts r l)

/-- Claim C2: loadAll (fetchRecords, hence loadCredentials and
loadMessages) returns all currently stored records in descending
timestamp order, and returns the empty sequence on an empty store, in
both the in-memory fallback and the IndexedDB path, for every store
state reachable by a sequence of puts. -/
theorem claim_C2 {α : Type} (ts : α → Nat) (rid : α → String) (rs : List α) :
    fetchMemory (persistManyMemory ts rs []) = persistManyMemory ts rs [] ∧
    (fetchMemory (persistManyMemory ts rs [])).Pairwise (tsGE ts) ∧
    fetchMemory ([] : List α) = [] ∧
    (fetchIndexed ts (persistManyIndexed ts rid rs [])).Perm (persistManyIndexed ts rid rs []) ∧
    (fetchIndexed ts (persistManyIndexed ts rid rs [])).Pairwise (tsGE ts) ∧
    fetchIndexed ts ([] : List α) = [] := by
  refine ⟨rfl, ?_, rfl, ?_, ?_, rfl⟩
  · exact sorted_persistManyMemory ts rs [] List.Pairwise.nil
  · exact List.perm_insertionSort (tsGE ts) _
  · exact sorted_sortByTimestampDesc ts _

theorem claim_C2_witness :
    (fetchMemory (persistManyMemory CredentialRecord.timestamp
        [⟨"a", "", "", .weak, 3⟩, ⟨"b", "", "", .weak, 7⟩] [])).Pairwise
      (tsGE CredentialRecord.timestamp) :=
  (claim_C2 CredentialRecord.timestamp CredentialRecord.id
    [⟨"a", "", "", .weak, 3⟩, ⟨"b", "", "", .weak, 7⟩]).2.1

/-! ### Put followed by loadAll -/

theorem sortByTimestampDesc_of_sorted {α : Type} (ts : α → Nat) {l : List α}
    (h : l.Pairwise (tsGE ts)) : sortByTimestampDesc ts l = l :=
  List.Sorted.insertionSort_eq h

theorem sortByTimestampDesc_cons_max {α : Type} (ts : α → Nat) {r : α} {l : List α}
    (h : ∀ b ∈ l, tsGE ts r b) :
    sortByTimestampDesc ts (r :: l) = r :: sortByTimestampDesc ts l :=
  List.insertionSort_cons (tsGE ts) h

theorem sort_append_max {α : Type} (ts : α → Nat) (r : α) :
    ∀ l : List α, (∀ y ∈ l, ts y < ts r) →
      sortByTimestampDesc ts (l ++ [r]) = r :: sortByTimestampDesc ts l := by
  intro l
  induction l with
  | nil => intro _; rfl
  | cons a l ih =>
    intro h
    have hr : ¬ tsGE ts a r := by
      have := h a (List.mem_cons_self a l)
      unfold tsGE
      omega
    have hl : ∀ y ∈ l, ts y < ts r := fun y hy => h y (List.mem_cons_of_mem a hy)
    show List.orderedInsert (tsGE ts) a (List.insertionSort (tsGE ts) (l ++ [r])) = _
    rw [show List.insertionSort (tsGE ts) (l ++ [r]) = sortByTimestampDesc ts (l ++ [r]) from rfl,
      ih hl]
    simp only [List.orderedInsert, if_neg hr]
    rfl

/-- Counterexample to claim C3: the record put has a timestamp greater
than or equal to every timestamp in the store (a tie), yet loadAll does
not return it at the head — the stable sort keeps the previously
stored record with the same timestamp first. -/
theorem claim_C3_counterexample :
    (∀ x ∈ fetchMemory (persistMemory CredentialRecord.timestamp
        (⟨"a", "", "", .weak, 5⟩ : CredentialRecord) []),
      x.timestamp ≤ (⟨"b", "", "", .weak, 5⟩ : CredentialRecord).timestamp) ∧
    (fetchMemory (persistMemory CredentialRecord.timestamp (⟨"b", "", "", .weak, 5⟩ : CredentialRecord)
        (persistMemory CredentialRecord.timestamp (⟨"a", "", "", .weak, 5⟩ : CredentialRecord) []))).head? ≠
      some (⟨"b", "", "", .weak, 5⟩ : CredentialRecord) := by
  decide

/-- Claim C3 as amended: put followed by loadAll yields the new record
at the head provided its timestamp is strictly greater than every
stored timestamp (a tie may leave an older record at the head), and —
in the in-memory fallback — the store holds fewer than 100 records
(otherwise the fallback trim deletes the newly inserted record, see the
capacity claim). -/
theorem claim_C3_amended {α : Type} (ts : α → Nat) (rid : α → String)
    (s : List α) (r : α) :
    (s.Pairwise (tsGE ts) → s.length < STORE_LIMIT → (∀ x ∈ s, ts x < ts r) →
      (fetchMemory (persistMemory ts r s)).head? = some r) ∧
    ((∀ x ∈ s, ts x < ts r) →
      (fetchIndexed ts (persistIndexed ts rid r s)).head? = some r) := by
  constructor
  · intro hs hlen hmax
    unfold fetchMemory persistMemory trimStoreMemory
    rw [sort_append_max ts r s hmax, sortByTimestampDesc_of_sorted ts hs]
    rw [if_neg (by simp only [List.length_cons]; omega)]
    rfl
  · intro hmax
    unfold fetchIndexed persistIndexed trimStoreIndexed putIndexed
    have hf : ∀ y ∈ s.filter (fun x => rid x ≠ rid r), ts y < ts r :=
      fun y hy => hmax y (List.mem_of_mem_filter hy)
    rw [sort_append_max ts r _ hf]
    rw [show STORE_LIMIT = 99 + 1 from rfl, List.take_succ_cons]
    have hall : ∀ b ∈ List.take 99
        (sortByTimestampDesc ts (s.filter (fun x => rid x ≠ rid r))), tsGE ts r b := by
      intro b hb
      have hb1 : b ∈ sortByTimestampDesc ts (s.filter (fun x => rid x ≠ rid r)) :=
        List.take_subset _ _ hb
      have hb2 : b ∈ s.filter (fun x => rid x ≠ rid r) :=
        (List.mem_insertionSort (tsGE ts)).mp hb1
      have := hf b hb2
      unfold tsGE
      omega
    rw [sortByTimestampDesc_cons_max ts hall]
    rfl

theorem claim_C3_amended_witness :
    (fetchMemory (persistMemory CredentialRecord.timestamp (⟨"b", "", "", .weak, 6⟩ : CredentialRecord)
        [⟨"a", "", "", .weak, 5⟩])).head? = some (⟨"b", "", "", .weak, 6⟩ : CredentialRecord) ∧
    (fetchIndexed CredentialRecord.timestamp
        (persistIndexed CredentialRecord.timestamp CredentialRecord.id
          (⟨"b", "", "", .weak, 6⟩ : CredentialRecord) [⟨"a", "", "", .weak, 5⟩])).head? =
      some (⟨"b", "", "", .weak, 6⟩ : CredentialRecord) := by
  constructor
  · exact (claim_C3_amended CredentialRecord.timestamp CredentialRecord.id
      [⟨"a", "", "", .weak, 5⟩] ⟨"b", "", "", .weak, 6⟩).1
      (List.pairwise_singleton _ _) (by decide) (by decide)
  · exact (claim_C3_amended CredentialRecord.timestamp CredentialRecord.id
      [⟨"a", "", "", .weak, 5⟩] ⟨"b", "", "", .weak, 6⟩).2 (by decide)

/-! ### The capacity trim bug in the in-memory fallback -/

set_option maxRecDepth 100000 in
/-- Claim C1 fails on the code: in the in-memory fallback, trimStore
splices records off the FRONT of the array, but persistCredential /
persistMessage keep the array sorted in DESCENDING timestamp order, so
the trim deletes the newest records and keeps the 100 oldest.  Putting
150 records with timestamps 1..150 sequentially leaves exactly the
records with timestamps 100..1 — the newest record (timestamp 150) is
absent and the oldest (timestamp 1) is still retrievable, the exact
opposite of the claim (and of the IndexedDB cursor trim, and of the
privacy text of the app itself: "Only the latest 100 records are
retained"). -/
theorem claim_C1_code_bug :
    fetchMemory (persistManyMemory CredentialRecord.timestamp (ascTimestampCreds 150) []) =
      descTimestampCreds 100 ∧
    (⟨"", "", "", .weak, 150⟩ : CredentialRecord) ∉
      fetchMemory (persistManyMemory CredentialRecord.timestamp (ascTimestampCreds 150) []) ∧
    (⟨"", "", "", .weak, 1⟩ : CredentialRecord) ∈
      fetchMemory (persistManyMemory CredentialRecord.timestamp (ascTimestampCreds 150) []) := by
  have h : fetchMemory (persistManyMemory CredentialRecord.timestamp (ascTimestampCreds 150) []) =
      descTimestampCreds 100 := by decide
  refine ⟨h, ?_, ?_⟩ <;> rw [h] <;> decide

/-! ### OTP extractor: leftmost-match characterization -/

theorem otpFromIdx_succ (prev : Option Char) (c : Char) (rest : List Char) (i : Nat) :
    otpFromIdx prev (c :: rest) (i + 1) = otpFromIdx (some c) rest i := by
  cases i with
  | zero => rfl
  | succ j => rfl

theorem scanOtp_eq_findSome? (l : List Char) :
    ∀ prev : Option Char,
      scanOtp prev l = (List.range l.length).findSome? (otpFromIdx prev l) := by
  induction l with
  | nil => intro prev; rfl
  | cons c rest ih =>
    intro prev
    have hcomp : otpFromIdx prev (c :: rest) ∘ Nat.succ = otpFromIdx (some c) rest :=
      funext fun i => otpFromIdx_succ prev c rest i
    have hf0 : otpFromIdx prev (c :: rest) 0 =
        if boundOk prev then otpAlt (c :: rest) else none := rfl
    rw [List.length_cons, List.range_succ_eq_map, List.findSome?_cons,
      List.findSome?_map, hcomp, ← ih, hf0]
    simp only [scanOtp]
    cases hb : (if boundOk prev then otpAlt (c :: rest) else none) with
    | none => simp [hb]
    | some r => simp [hb]

theorem ite_some_eq {σ : Type} {C : Prop} [Decidable C] {a b : σ}
    (h : (if C then some a else none) = some b) : C ∧ a = b := by
  by_cases hC : C
  · rw [if_pos hC] at h
    exact ⟨hC, Option.some.inj h⟩
  · rw [if_neg hC] at h
    exact absurd h (by simp)

theorem otpAt_sound {l : List Char} {k : Nat} {run : List Char}
    (h : otpAt l k = some run) :
    run = l.take k ∧ run.length = k ∧ run.all isDigit09 = true ∧
      (l.drop k = [] ∨ ∃ c t, l.drop k = c :: t ∧ isWordChar c = false) := by
  unfold otpAt at h
  obtain ⟨hcond, hrun0⟩ := ite_some_eq h
  have hrun : run = l.take k := hrun0.symm
  simp only [Bool.and_eq_true, decide_eq_true_eq] at hcond
  obtain ⟨⟨hlen, hdig⟩, hbnd⟩ := hcond
  refine ⟨hrun, by rw [hrun]; exact hlen, by rw [hrun]; exact hdig, ?_⟩
  cases hd : l.drop k with
  | nil => exact Or.inl rfl
  | cons c t =>
    rw [hd] at hbnd
    exact Or.inr ⟨c, t, rfl, by simpa using hbnd⟩

theorem otpAlt_sound {l : List Char} {run : List Char} (h : otpAlt l = some run) :
    ∃ k, (k = 4 ∨ k = 6 ∨ k = 8) ∧ otpAt l k = some run := by
  unfold otpAlt at h
  cases h4 : otpAt l 4 with
  | some r => rw [h4] at h; exact ⟨4, Or.inl rfl, h4.trans h⟩
  | none =>
    rw [h4] at h
    cases h6 : otpAt l 6 with
    | some r => rw [h6] at h; exact ⟨6, Or.inr (Or.inl rfl), h6.trans h⟩
    | none =>
      rw [h6] at h
      exact ⟨8, Or.inr (Or.inr rfl), h⟩

theorem getLast?_take_succ {γ : Type} (d : γ) :
    ∀ (l : List γ) (j : Nat), j < l.length →
      (l.take (j + 1)).getLast? = some (l.getD j d) := by
  intro l
  induction l with
  | nil => intro j hj; simp at hj
  | cons a m ih =>
    intro j hj
    cases j with
    | zero => rfl
    | succ jj =>
      have hjj : jj < m.length := by simpa using Nat.lt_of_succ_lt_succ hj
      cases m with
      | nil => simp at hjj
      | cons b m2 =>
        rw [List.take_succ_cons, List.take_succ_cons, List.getLast?_cons_cons,
          List.getD_cons_succ]
        have htake := ih jj hjj
        rw [List.take_succ_cons] at htake
        exact htake

/-- Points 1 and 2: the structural facts about any successful extraction,
shared with the message-synthesizer claim.  The returned string is a run
of exactly 4, 6 or 8 decimal digits, and in the text it is preceded and
followed by nothing or by a non-word (hence non-digit) character, so it
is never a proper part of a longer maximal digit run. -/
theorem extractOtp_sound {t s : String} (h : extractOtp t = some s) :
    s.data.all isDigit09 = true ∧ (s.length = 4 ∨ s.length = 6 ∨ s.length = 8) ∧
      ∃ pre post, t.data = pre ++ s.data ++ post ∧
        (∀ c, pre.getLast? = some c → isWordChar c = false) ∧
        (∀ c, post.head? = some c → isWordChar c = false) := by
  unfold extractOtp at h
  obtain ⟨r, hr, hsr⟩ : ∃ r, scanOtp none t.data = some r ∧ String.mk r = s := by
    cases hsc : scanOtp none t.data with
    | none => rw [hsc] at h; exact absurd h (by simp)
    | some r => rw [hsc] at h; exact ⟨r, rfl, Option.some.inj h⟩
  have hsdata : s.data = r := by rw [← hsr]
  rw [scanOtp_eq_findSome?] at hr
  obtain ⟨i, hi_mem, hfi⟩ := List.exists_of_findSome?_eq_some hr
  have hi_lt : i < t.data.length := List.mem_range.mp hi_mem
  unfold otpFromIdx at hfi
  have hbound : boundOk (if i = 0 then none else some (t.data.getD (i - 1) ' ')) = true := by
    by_contra hB
    rw [if_neg hB] at hfi
    exact absurd hfi (by simp)
  rw [if_pos hbound] at hfi
  obtain ⟨k, hk, hAt⟩ := otpAlt_sound hfi
  obtain ⟨hrun, hlen, hdig, hafter⟩ := otpAt_sound hAt
  have hslen : s.length = k := by
    rw [String.length, hsdata, hlen]
  have hdrop : (t.data.drop i).drop k = t.data.drop (i + k) := List.drop_drop k i t.data
  refine ⟨by rw [hsdata]; exact hdig, by omega, t.data.take i, t.data.drop (i + k), ?_, ?_, ?_⟩
  · rw [hsdata, hrun, List.append_assoc, ← hdrop, List.take_append_drop,
      List.take_append_drop]
  · intro c hc
    cases i with
    | zero => simp at hc
    | succ j =>
      rw [if_neg (by omega : ¬(j + 1 = 0))] at hbound
      simp only [Nat.add_sub_cancel] at hbound
      have hj : j < t.data.length := by omega
      rw [getLast?_take_succ ' ' t.data j hj] at hc
      have hcc : c = t.data.getD j ' ' := (Option.some.inj hc).symm
      rw [hcc]
      simpa [boundOk] using hbound
  · intro c hc
    rw [← hdrop] at hc
    rcases hafter with hnil | ⟨c2, t2, heq, hw⟩
    · rw [hnil] at hc
      simp at hc
    · rw [heq] at hc
      have hcc : c = c2 := by simpa using hc.symm
      rw [hcc]
      exact hw

/-- Claim C8: extractOtp returns the first (leftmost) standalone run of
exactly 4, 6 or 8 decimal digits bounded by word boundaries, and absent
when none exists; a returned run is bounded on both sides by nothing or
by a non-word (hence non-digit) character, so it is never a substring
of a longer maximal digit run; the two concrete examples of the spec
evaluate as stated. -/
theorem claim_C8 :
    extractOtp "Your code is 482913 today" = some "482913" ∧
    extractOtp "order #12345678901 shipped" = none ∧
    (∀ t : String, extractOtp t =
      ((List.range t.data.length).findSome? (otpFromIdx none t.data)).map String.mk) ∧
    (∀ t s : String, extractOtp t = some s →
      s.data.all isDigit09 = true ∧ (s.length = 4 ∨ s.length = 6 ∨ s.length = 8) ∧
        ∃ pre post, t.data = pre ++ s.data ++ post ∧
          (∀ c, pre.getLast? = some c → isWordChar c = false) ∧
          (∀ c, post.head? = some c → isWordChar c = false)) := by
  refine ⟨by decide, by decide, ?_, fun _ _ h => extractOtp_sound h⟩
  intro t
  unfold extractOtp
  rw [scanOtp_eq_findSome?]

theorem claim_C8_witness :
    ("482913" : String).data.all isDigit09 = true ∧
      (("482913" : String).length = 4 ∨ ("482913" : String).length = 6 ∨
        ("482913" : String).length = 8) := by
  have h := claim_C8.2.2.2 "Your code is 482913 today" "482913" (by decide)
  exact ⟨h.1, h.2.1⟩

/-! ### Random email shape -/

theorem padLocalLoop_spec (src : RandSrc) :
    ∀ (n i : Nat) (loc : List Char), ∃ pad,
      (padLocalLoop src n i loc).1 = loc ++ pad ∧ pad.length = n ∧
        ∀ c ∈ pad, c ∈ LETTERS.data ∨ c ∈ NUMBERS.data := by
  intro n
  induction n with
  | zero =>
    intro i loc
    exact ⟨[], by simp [padLocalLoop], rfl, by simp⟩
  | succ n ih =>
    intro i loc
    simp only [padLocalLoop]
    set cset := if (randomInt src i 0 1).1 = 0 then LETTERS.data else NUMBERS.data with hcset
    set c := (randomChar src (randomInt src i 0 1).2 cset).1 with hc
    obtain ⟨pad, h1, h2, h3⟩ := ih (randomChar src (randomInt src i 0 1).2 cset).2 (loc ++ [c])
    refine ⟨c :: pad, ?_, by simp [h2], ?_⟩
    · rw [h1, List.append_assoc, List.singleton_append]
    · intro x hx
      rcases List.mem_cons.mp hx with hxc | hxp
      · subst hxc
        have hne : cset ≠ [] := by
          rw [hcset]
          split_ifs <;> decide
        have hmem : c ∈ cset := by
          rw [hc]
          exact randomChar_mem src _ cset hne
        rw [hcset] at hmem
        by_cases h0 : (randomInt src i 0 1).1 = 0
        · rw [if_pos h0] at hmem
          exact Or.inl hmem
        · rw [if_neg h0] at hmem
          exact Or.inr hmem
      · exact h3 x hxp

/-- Claim C9: every generated email is local ++ '@' ++ domain with the
domain drawn from EMAIL_DOMAINS, the local part of length 8..12 made of
a phonetic word padded with lowercase letters and digits, and the whole
string contains exactly one '@'. -/
theorem claim_C9 (src : RandSrc) (i : Nat) :
    ∃ loc domain, (generateRandomEmail src i).1 = String.mk (loc ++ '@' :: domain.data) ∧
      domain ∈ EMAIL_DOMAINS ∧ 8 ≤ loc.length ∧ loc.length ≤ 12 ∧
      (∃ w ∈ phoneticPrefixes, ∃ pad, loc = w.data ++ pad ∧
        ∀ c ∈ pad, c ∈ LETTERS.data ∨ c ∈ NUMBERS.data) ∧
      (String.mk (loc ++ '@' :: domain.data)).data.count '@' = 1 := by
  have h812 := randomInt_bounds src i 8 12 (by omega)
  unfold generateRandomEmail
  dsimp only
  set ll := randomInt src i 8 12 with hll
  set wi := randomInt src ll.2 0 (phoneticPrefixes.length - 1) with hwi
  set w := phoneticPrefixes.getD wi.1 "" with hw
  set loc0 := padLocalLoop src (ll.1 - w.data.length) wi.2 w.data with hloc0
  set di := randomInt src loc0.2 0 (EMAIL_DOMAINS.length - 1) with hdi
  set dom := EMAIL_DOMAINS.getD di.1 "" with hdom
  obtain ⟨pad, hp1, hp2, hp3⟩ := padLocalLoop_spec src (ll.1 - w.data.length) wi.2 w.data
  rw [← hloc0] at hp1
  have hwmem : w ∈ phoneticPrefixes := by
    rw [hw]
    refine getD_mem _ _ _ ?_
    rw [hwi]
    exact randomInt_zero_lt src ll.2 phoneticPrefixes.length (by decide)
  have hw7 : w.data.length ≤ 7 := by
    have hall : ∀ x ∈ phoneticPrefixes, x.data.length ≤ 7 := by decide
    exact hall w hwmem
  have hlen : loc0.1.length = w.data.length + pad.length := by
    rw [hp1, List.length_append]
  have hdmem : dom ∈ EMAIL_DOMAINS := by
    rw [hdom]
    refine getD_mem _ _ _ ?_
    rw [hdi]
    exact randomInt_zero_lt src loc0.2 EMAIL_DOMAINS.length (by decide)
  have hpadne : '@' ∉ pad := by
    intro hin
    rcases hp3 '@' hin with hL | hN
    · exact absurd hL (by decide)
    · exact absurd hN (by decide)
  have hwne : '@' ∉ w.data := by
    have hall : ∀ x ∈ phoneticPrefixes, '@' ∉ x.data := by decide
    exact hall w hwmem
  have hlocne : List.count '@' loc0.1 = 0 := by
    rw [hp1, List.count_append]
    rw [List.count_eq_zero.mpr hwne, List.count_eq_zero.mpr hpadne]
  have hdomne : List.count '@' dom.data = 0 := by
    have hall : ∀ x ∈ EMAIL_DOMAINS, List.count '@' x.data = 0 := by decide
    exact hall dom hdmem
  refine ⟨loc0.1, dom, rfl, hdmem, ?_, ?_, ⟨w, hwmem, pad, hp1, hp3⟩, ?_⟩
  · omega
  · omega
  · show List.count '@' (loc0.1 ++ '@' :: dom.data) = 1
    rw [List.count_append, hlocne, List.count_cons_self, hdomne]

theorem claim_C9_witness : (generateRandomEmail srcAllZero 0).1.data.count '@' = 1 := by
  obtain ⟨loc, dom, h1, _, _, _, _, hc⟩ := claim_C9 srcAllZero 0
  rw [h1]
  exact hc

/-! ### Message synthesizer: the otp field -/

theorem toString_digit {d : Nat} (h : d ≤ 9) :
    (toString d).data.all isDigit09 = true ∧ (toString d).length = 1 := by
  interval_cases d <;> exact ⟨by decide, by decide⟩

theorem genOtpDigits_spec (src : RandSrc) :
    ∀ (n i : Nat) (acc : String), acc.data.all isDigit09 = true →
      (genOtpDigits src n i acc).1.data.all isDigit09 = true ∧
        (genOtpDigits src n i acc).1.length = acc.length + n := by
  intro n
  induction n with
  | zero =>
    intro i acc hacc
    exact ⟨hacc, by simp [genOtpDigits]⟩
  | succ n ih =>
    intro i acc hacc
    simp only [genOtpDigits]
    have hd9 : (randomInt src i 0 9).1 ≤ 9 := (randomInt_bounds src i 0 9 (by omega)).2
    obtain ⟨hdig1, hlen1⟩ := toString_digit hd9
    have hacc2 : (acc ++ toString (randomInt src i 0 9).1).data.all isDigit09 = true := by
      rw [String.data_append, List.all_append]
      simp [hacc, hdig1]
    obtain ⟨ih1, ih2⟩ := ih (randomInt src i 0 9).2 (acc ++ toString (randomInt src i 0 9).1) hacc2
    refine ⟨ih1, ?_⟩
    rw [ih2, String.length_append, hlen1]
    omega

theorem otpLengths_getD (m : Nat) (h : m < 3) :
    OTP_LENGTHS.getD m 0 = 4 ∨ OTP_LENGTHS.getD m 0 = 6 ∨ OTP_LENGTHS.getD m 0 = 8 := by
  interval_cases m
  · exact Or.inl rfl
  · exact Or.inr (Or.inl rfl)
  · exact Or.inr (Or.inr rfl)

/-- Claim C10: every MessageRecord produced by createMessageRecord has a
non-null otp field holding a string of exactly 4, 6 or 8 decimal
digits, and whenever re-extraction from the rendered body succeeds the
field is exactly the re-extracted OTP (otherwise it falls back to the
generated digit string). -/
theorem claim_C10 (src : RandSrc) (i : Nat) (uuid : String) (now : Nat) :
    (∃ s, (createMessageRecord src i uuid now).1.otp = some s ∧
      s.data.all isDigit09 = true ∧ (s.length = 4 ∨ s.length = 6 ∨ s.length = 8)) ∧
    (∀ s2, extractOtp (createMessageRecord src i uuid now).1.body = some s2 →
      (createMessageRecord src i uuid now).1.otp = some s2) := by
  unfold createMessageRecord
  dsimp only
  set ti := randomInt src i 0 (messageTemplates.length - 1) with hti
  set template := messageTemplates.getD ti.1 ⟨"", [], []⟩ with htemp
  set li := randomInt src ti.2 0 (OTP_LENGTHS.length - 1) with hli
  set oi := genOtpDigits src (OTP_LENGTHS.getD li.1 0) li.2 "" with hoi
  set si := randomInt src oi.2 0 (template.subjects.length - 1) with hsi
  set bi := randomInt src si.2 0 (template.bodies.length - 1) with hbi
  set body := (template.bodies.getD bi.1 "").replace "%CODE%" oi.1 with hbody
  have hlt3 : li.1 < 3 := by
    rw [hli]
    exact randomInt_zero_lt src ti.2 OTP_LENGTHS.length (by decide)
  have hgen := genOtpDigits_spec src (OTP_LENGTHS.getD li.1 0) li.2 "" (by decide)
  rw [← hoi] at hgen
  obtain ⟨hgen1, hgen2⟩ := hgen
  constructor
  · cases hx : extractOtp body with
    | some s2 =>
      obtain ⟨hd, hl, _⟩ := extractOtp_sound hx
      exact ⟨s2, rfl, hd, hl⟩
    | none =>
      refine ⟨oi.1, rfl, hgen1, ?_⟩
      rw [hgen2]
      have := otpLengths_getD li.1 hlt3
      simpa using this
  · intro s2 hs2
    rw [hs2]
    rfl

theorem claim_C10_witness :
    ∃ s, (createMessageRecord srcAllZero 0 "id" 0).1.otp = some s ∧
      s.data.all isDigit09 = true ∧ (s.length = 4 ∨ s.length = 6 ∨ s.length = 8) :=
  (claim_C10 srcAllZero 0 "id" 0).1

end Inbox
